import Mathlib

/-!
# Verification of the fairshare debt ledger and netting engine

A shallow embedding of `fairshare.py`.  The SQLite store is modelled as an
explicit record of tables (lists of rows kept in rowid / insertion order,
matching a full table scan of a table with AUTOINCREMENT primary keys).
Costs are exact rationals (the spec's "exact real arithmetic" reading of the
REAL column).  Python exceptions become explicit error values; functions that
can raise return `Except Err _` or pair their result with `Option Err`.
-/

/-- Error kinds raised by the source: the `Illegal*Error` and `*NotFoundError`
classes of `fairshare.py`, plus the builtin `KeyError` (raised by a `users[...]`
dictionary lookup) and `ZeroDivisionError` (raised by `cost / len(debtors)`). -/
inductive Err where
  | illegalUsername
  | illegalTitle
  | illegalCost
  | illegalDate
  | userNotFound
  | expenseNotFound
  | keyError
  | zeroDiv
deriving DecidableEq, Repr

/-- A row of the `expenses` table. -/
structure ExpenseRow where
  e_id : Nat
  e_cost : ℚ
  e_title : String
  e_date : String
  e_payer : Nat
deriving DecidableEq, Repr

/-- A row of the `expenses_settled` table (an expense row plus its
settlement-event reference `e_settle`). -/
structure SettledExpenseRow where
  e_id : Nat
  e_cost : ℚ
  e_title : String
  e_date : String
  e_payer : Nat
  e_settle : Nat
deriving DecidableEq, Repr

/-- The SQLite database of `create_database`: tables `users`, `expenses`,
`debts`, `settles`, `expenses_settled`, `debts_settled`.  Every list is kept in
rowid (insertion) order; the `next*Id` fields model the AUTOINCREMENT counters.
`debts` rows are `(d_expense, d_debtor)` pairs, `users` rows are
`(u_id, u_name)` pairs, `settles` rows are `(s_id, s_date)` pairs. -/
structure DB where
  users : List (Nat × String)
  expenses : List ExpenseRow
  debts : List (Nat × Nat)
  settles : List (Nat × String)
  expenses_settled : List SettledExpenseRow
  debts_settled : List (Nat × Nat)
  nextUserId : Nat
  nextExpenseId : Nat
  nextSettleId : Nat
  nextSettledExpenseId : Nat
deriving DecidableEq, Repr

/-- The values of the `get_users_dict` dictionary in iteration order:
`SELECT u_id, u_name FROM users` returns rows in rowid order and a Python
dict preserves insertion order, so the values are the names in u_id order. -/
def usersNames (st : DB) : List String := st.users.map (fun u => u.2)

/-- `get_u_name`: `SELECT u_name FROM users WHERE u_id=?`; raises
`UserNotFoundError` when the id is absent. -/
def get_u_name (st : DB) (u_id : Nat) : Except Err String :=
  match List.lookup u_id st.users with
  | some n => .ok n
  | none => .error .userNotFound

/-- `get_debtors` (u_name=False): `SELECT d_debtor FROM debts WHERE
d_expense=?`, in rowid order.  Returns `[]`, not an error, for unknown ids. -/
def get_debtors (st : DB) (e_id : Nat) : List Nat :=
  (st.debts.filter (fun d => d.1 = e_id)).map (fun d => d.2)

/- ### Python string and number primitives used by the validators -/

/-- The whitespace characters stripped by Python's `str.strip()` /
tested by `str.isspace()` (the ASCII ones). -/
def isPySpace (c : Char) : Bool :=
  c = ' ' ∨ c = '\t' ∨ c = '\n' ∨ c = '\x0b' ∨ c = '\x0c' ∨ c = '\r'

/-- Python `str.strip()`. -/
def pyStrip (s : String) : String :=
  ⟨((s.toList.dropWhile isPySpace).reverse.dropWhile isPySpace).reverse⟩

/-- Python `str.isspace()`: non-empty and all whitespace. -/
def pyIsSpace (s : String) : Bool :=
  ¬ s.toList.isEmpty ∧ s.toList.all isPySpace

/-- Value of a list of decimal digit characters. -/
def digitsToNat (cs : List Char) : Nat :=
  cs.foldl (fun n c => n * 10 + (c.toNat - '0'.toNat)) 0

/-- Python `int(s)` on a string: surrounding whitespace allowed, optional
sign, then a non-empty run of digits.  `none` models `ValueError`. -/
def pyInt? (s : String) : Option Int :=
  let core : List Char → Option Nat := fun cs =>
    if cs ≠ [] ∧ cs.all Char.isDigit then some (digitsToNat cs) else none
  match (pyStrip s).toList with
  | '+' :: r => (core r).map (fun n => (n : Int))
  | '-' :: r => (core r).map (fun n => -(n : Int))
  | r => (core r).map (fun n => (n : Int))

/-- Exponent part of a float literal: optional sign then non-empty digits. -/
def pyFloatExp? (cs : List Char) : Option Int :=
  let core : List Char → Option Nat := fun ds =>
    if ds ≠ [] ∧ ds.all Char.isDigit then some (digitsToNat ds) else none
  match cs with
  | '+' :: r => (core r).map (fun n => (n : Int))
  | '-' :: r => (core r).map (fun n => -(n : Int))
  | r => (core r).map (fun n => (n : Int))

/-- Unsigned mantissa with optional exponent: `digits [. digits]` or
`. digits` or `digits .`, optionally followed by `e`/`E` and an exponent.
The whole character list must be consumed. -/
def pyFloatMant? (cs : List Char) : Option ℚ :=
  let intPart := cs.takeWhile Char.isDigit
  let rest := cs.dropWhile Char.isDigit
  match rest with
  | [] => if intPart.isEmpty then none else some (digitsToNat intPart : ℚ)
  | '.' :: rest2 =>
    let fracPart := rest2.takeWhile Char.isDigit
    let rest3 := rest2.dropWhile Char.isDigit
    if intPart.isEmpty ∧ fracPart.isEmpty then none
    else
      let base : ℚ :=
        (digitsToNat intPart : ℚ) + (digitsToNat fracPart : ℚ) / 10 ^ fracPart.length
      match rest3 with
      | [] => some base
      | e :: rest4 =>
        if e = 'e' ∨ e = 'E' then (pyFloatExp? rest4).map (fun k => base * 10 ^ k)
        else none
  | e :: rest4 =>
    if (e = 'e' ∨ e = 'E') ∧ ¬ intPart.isEmpty then
      (pyFloatExp? rest4).map (fun k => (digitsToNat intPart : ℚ) * 10 ^ k)
    else none

/-- Python `float(s)` on a string restricted to finite decimal literals:
surrounding whitespace allowed, optional sign, decimal mantissa, optional
exponent.  `none` models `ValueError`. -/
def pyFloat? (s : String) : Option ℚ :=
  match (pyStrip s).toList with
  | '+' :: r => pyFloatMant? r
  | '-' :: r => (pyFloatMant? r).map Neg.neg
  | r => pyFloatMant? r

/-- A cost argument: `insert_expense` is called with either a string (from the
interactive prompt) or a number (as in the tests); `float` accepts both. -/
inductive CostInput where
  | str (s : String)
  | num (q : ℚ)
deriving DecidableEq, Repr

/-- `float(cost)` over both input shapes. -/
def pyFloatOf : CostInput → Option ℚ
  | .str s => pyFloat? s
  | .num q => some q

/- ### Validation layer -/

/-- `validate_username`: rejects strings that differ from their stripped form,
are empty or all-whitespace, contain a comma, or parse with `int()`. -/
def validate_username (u_name : String) : Except Err String :=
  if u_name ≠ pyStrip u_name then .error .illegalUsername
  else if u_name = "" ∨ pyIsSpace u_name then .error .illegalUsername
  else if u_name.toList.contains ',' then .error .illegalUsername
  else if (pyInt? u_name).isSome then .error .illegalUsername
  else .ok u_name

/-- `validate_expense_cost`: `float(cost)`, then the value must be `> 0`.
An unparseable input raises (ValueError/TypeError, caught), and the explicit
`IllegalExpenseCostError` raised inside the `try` block propagates because it
is not a subclass of the caught exceptions. -/
def validate_expense_cost (cost : CostInput) : Except Err ℚ :=
  match pyFloatOf cost with
  | none => .error .illegalCost
  | some q => if ¬ q > 0 then .error .illegalCost else .ok q

/-- Number of days in a month of the proleptic Gregorian calendar used by
`datetime`. -/
def daysInMonth (y m : Nat) : Nat :=
  if m = 2 then (if y % 4 = 0 ∧ (y % 100 ≠ 0 ∨ y % 400 = 0) then 29 else 28)
  else if m = 4 ∨ m = 6 ∨ m = 9 ∨ m = 11 then 30
  else 31

/-- `datetime.datetime.strptime(date, '%Y%m%d')` on an 8-digit string: four
digit year (≥ 1), two digit month, two digit day, forming a real calendar
date.  The result is encoded as the number `y*10000 + m*100 + d`, on which the
numeric order agrees with the date order.  `none` models `ValueError`. -/
def parseYmd? (date : String) : Option Nat :=
  let cs := date.toList
  if cs.length = 8 ∧ cs.all Char.isDigit then
    let y := digitsToNat (cs.take 4)
    let m := digitsToNat ((cs.drop 4).take 2)
    let d := digitsToNat (cs.drop 6)
    if 1 ≤ y ∧ 1 ≤ m ∧ m ≤ 12 ∧ 1 ≤ d ∧ d ≤ daysInMonth y m then
      some (y * 10000 + m * 100 + d)
    else none
  else none

/-- `validate_expense_date`: parse as `%Y%m%d`, reject dates after `today`
(passed explicitly here: `datetime.date.today()` encoded as `YYYYMMDD`), and
return the original string.  The `IllegalExpenseDateError` raised inside the
`try` block propagates past the `except` clause. -/
def validate_expense_date (today : Nat) (date : String) : Except Err String :=
  match parseYmd? date with
  | none => .error .illegalDate
  | some n => if n > today then .error .illegalDate else .ok date

/-- `validate_expense_title`: no surrounding whitespace, not empty or
whitespace-only. -/
def validate_expense_title (title : String) : Except Err String :=
  if title ≠ pyStrip title then .error .illegalTitle
  else if title = "" ∨ pyIsSpace title then .error .illegalTitle
  else .ok title

/-- `validate_user_id`: `get_u_name` must succeed; returns the id. -/
def validate_user_id (st : DB) (u_id : Nat) : Except Err Nat :=
  match get_u_name st u_id with
  | .ok _ => .ok u_id
  | .error e => .error e

/-- `validate_expense_id`: `SELECT e_id FROM expenses WHERE e_id=?` must
return a row. -/
def validate_expense_id (st : DB) (e_id : Nat) : Except Err Nat :=
  if st.expenses.any (fun r => r.e_id = e_id) then .ok e_id
  else .error .expenseNotFound

/-- Fail-fast traversal: models a Python list comprehension over a
raising function (the first exception aborts the whole comprehension). -/
def mapExcept (f : α → Except Err β) : List α → Except Err (List β)
  | [] => .ok []
  | a :: as =>
    match f a with
    | .error e => .error e
    | .ok b =>
      match mapExcept f as with
      | .error e => .error e
      | .ok bs => .ok (b :: bs)

/-- Decidable equality for `Except` results, used to evaluate the embedding on
concrete inputs. -/
instance exceptDecEq {e a : Type} [DecidableEq e] [DecidableEq a] :
    DecidableEq (Except e a) := fun x y =>
  match x, y with
  | .error e1, .error e2 =>
    if h : e1 = e2 then isTrue (by rw [h])
    else isFalse (by intro hcon; injection hcon with h2; exact h h2)
  | .error _, .ok _ => isFalse (fun hcon => Except.noConfusion hcon)
  | .ok _, .error _ => isFalse (fun hcon => Except.noConfusion hcon)
  | .ok a1, .ok a2 =>
    if h : a1 = a2 then isTrue (by rw [h])
    else isFalse (by intro hcon; injection hcon with h2; exact h h2)

/- ### Ledger repository: sorted expense listing -/

/-- Byte-wise (memcmp) strict comparison on character lists: the collation
SQLite applies to TEXT columns such as `e_date`. -/
def memcmpLt : List Char → List Char → Bool
  | [], [] => false
  | [], _ :: _ => true
  | _ :: _, [] => false
  | a :: as, b :: bs =>
    if a = b then memcmpLt as bs else decide (a.toNat < b.toNat)

/-- Strict memcmp order on strings. -/
def dateLt (a b : String) : Bool := memcmpLt a.toList b.toList

/-- Non-strict memcmp order on strings. -/
def dateLe (a b : String) : Bool := ! dateLt b a

/-- Insert an expense row into a date-sorted list, after every row whose date
is strictly smaller and before the first row whose date is at least as large.
Models the placement a stable `ORDER BY e_date` gives a row relative to rows
scanned earlier. -/
def insertByDate (r : ExpenseRow) : List ExpenseRow → List ExpenseRow
  | [] => [r]
  | x :: xs => if dateLe r.e_date x.e_date then r :: x :: xs else x :: insertByDate r xs

/-- Stable sort of the expense rows by `e_date`, the model of
`SELECT ... FROM expenses ORDER BY e_date` over rows in rowid order. -/
def sortByDate : List ExpenseRow → List ExpenseRow
  | [] => []
  | r :: rs => insertByDate r (sortByDate rs)

/-- `get_expenses` (u_name=False): the live expenses ordered by date. -/
def get_expenses (st : DB) : List ExpenseRow :=
  sortByDate st.expenses

/-- `get_expenses` with `u_name=True`: after building the date-ordered list,
every payer id is replaced by its name through the users dictionary; a missing
id raises `KeyError` while the list is being rewritten. -/
def get_expenses_named (st : DB) : Except Err (List (ExpenseRow × String)) :=
  mapExcept
    (fun e =>
      match List.lookup e.e_payer st.users with
      | some n => .ok (e, n)
      | none => .error .keyError)
    (get_expenses st)

/-- `get_debtors` with `u_name=True`: debtor ids of the expense, each replaced
by its name through the users dictionary (`KeyError` on a missing id). -/
def get_debtors_named (st : DB) (e_id : Nat) : Except Err (List String) :=
  mapExcept
    (fun i =>
      match List.lookup i st.users with
      | some n => .ok n
      | none => .error .keyError)
    (get_debtors st e_id)

/- ### Netting engine -/

/-- The `cashers` matrix of `get_status_dict`: `M c p` is the amount user
`p` must pay user `c`.  The Python dict-of-dicts (zero-filled over the user
names) is modelled as a total function that is zero outside the written
entries. -/
abbrev Mat := String → String → ℚ

/-- Write one cell of the matrix (`cashers[a][b] = v`). -/
def update2 (M : Mat) (a b : String) (v : ℚ) : Mat :=
  fun x y => if x = a ∧ y = b then v else M x y

/-- The all-zero matrix the loops of `get_status_dict` start from. -/
def zeroMat : Mat := fun _ _ => 0

/-- One debtor of one expense: `cashers[payer][debtor] += share`. -/
def addShare (M : Mat) (payer debtor : String) (share : ℚ) : Mat :=
  update2 M payer debtor (M payer debtor + share)

/-- Gross accumulation over one expense's debtor list (the
`for debtor in debtors` loop, one `+=` per occurrence). -/
def addShares (M : Mat) (payer : String) (debtors : List String) (share : ℚ) : Mat :=
  match debtors with
  | [] => M
  | d :: ds => addShares (addShare M payer d share) payer ds share

/-- The gross-accumulation loop of `get_status_dict`: for every live expense
(in date order, payer already resolved to a name), fetch its debtors, compute
`share = cost / len(debtors)` — `ZeroDivisionError` when the list is empty —
then add the share to the payer's row at every debtor. -/
def grossFold (st : DB) : List (ExpenseRow × String) → Mat → Except Err Mat
  | [], M => .ok M
  | (e, payer) :: rest, M =>
    match get_debtors_named st e.e_id with
    | .error err => .error err
    | .ok debtors =>
      if debtors.length = 0 then .error .zeroDiv
      else grossFold st rest (addShares M payer debtors (e.e_cost / (debtors.length : ℚ)))

/-- One iteration of the netting double loop: compare `cashers[c][p]` with
`cashers[p][c]`; the larger side keeps the absolute difference and the other
side is zeroed; equal sides are both zeroed; the smaller side leaves the
matrix untouched. -/
def netStep (M : Mat) (c p : String) : Mat :=
  if M c p > M p c then update2 (update2 M c p |M c p - M p c|) p c 0
  else if M c p = M p c then update2 (update2 M c p 0) p c 0
  else M

/-- The netting pass: `for casher in users.values(): for payer in
users.values(): ...`, mutating the matrix in place. -/
def nettingPass (ns : List String) (M : Mat) : Mat :=
  ns.foldl (fun M c => ns.foldl (fun M p => netStep M c p) M) M

/-- `get_status_dict`: zero matrix over the users, gross accumulation over
the live expenses, then the netting pass. -/
def get_status_dict (st : DB) : Except Err Mat :=
  match get_expenses_named st with
  | .error e => .error e
  | .ok named =>
    match grossFold st named zeroMat with
    | .error e => .error e
    | .ok M => .ok (nettingPass (usersNames st) M)

/-- The output loop of `get_status_list`: for every casher and payer (in user
order) emit `(payer, casher, amount)` when the netted amount is non-zero. -/
def statusRows (ns : List String) (M : Mat) : List (String × String × ℚ) :=
  ns.flatMap (fun c => (ns.filter (fun p => ¬ M c p = 0)).map (fun p => (p, c, M c p)))

/-- `get_status_list`: the non-zero netted balances as
`(this user must pay, this user, this amount)` triples. -/
def get_status_list (st : DB) : Except Err (List (String × String × ℚ)) :=
  match get_status_dict st with
  | .error e => .error e
  | .ok M => .ok (statusRows (usersNames st) M)

/- ### Ledger repository: mutations -/

/-- `insert_expense`: validate title, cost, date, payer and every debtor —
in this order, before any write — then insert one `expenses` row and one
`debts` row per debtor.  The result pairs the raised error (if any) with the
database state after the call. -/
def insert_expense (today : Nat) (st : DB) (title : String) (cost : CostInput)
    (date : String) (payer : Nat) (debtors : List Nat) : Option Err × DB :=
  match validate_expense_title title with
  | .error e => (some e, st)
  | .ok title' =>
  match validate_expense_cost cost with
  | .error e => (some e, st)
  | .ok cost' =>
  match validate_expense_date today date with
  | .error e => (some e, st)
  | .ok date' =>
  match validate_user_id st payer with
  | .error e => (some e, st)
  | .ok payer' =>
  match mapExcept (validate_user_id st) debtors with
  | .error e => (some e, st)
  | .ok debtors' =>
    let e_id := st.nextExpenseId
    (none,
      { st with
          expenses := st.expenses ++ [⟨e_id, cost', title', date', payer'⟩],
          nextExpenseId := e_id + 1,
          debts := st.debts ++ debtors'.map (fun d => (e_id, d)) })

/-- `update_expense`: validate the expense id, title, cost, date, payer and
every debtor — in this order, before any write — then update the `expenses`
row in place and replace its `debts` rows (delete all, then insert the new
ones). -/
def update_expense (today : Nat) (st : DB) (e_id : Nat) (title : String)
    (cost : CostInput) (date : String) (payer : Nat) (debtors : List Nat) :
    Option Err × DB :=
  match validate_expense_id st e_id with
  | .error e => (some e, st)
  | .ok e_id' =>
  match validate_expense_title title with
  | .error e => (some e, st)
  | .ok title' =>
  match validate_expense_cost cost with
  | .error e => (some e, st)
  | .ok cost' =>
  match validate_expense_date today date with
  | .error e => (some e, st)
  | .ok date' =>
  match validate_user_id st payer with
  | .error e => (some e, st)
  | .ok payer' =>
  match mapExcept (validate_user_id st) debtors with
  | .error e => (some e, st)
  | .ok debtors' =>
    (none,
      { st with
          expenses := st.expenses.map (fun r =>
            if r.e_id = e_id' then
              { r with e_cost := cost', e_title := title', e_date := date',
                       e_payer := payer' }
            else r),
          debts := st.debts.filter (fun d => ¬ d.1 = e_id')
                    ++ debtors'.map (fun d => (e_id', d)) })

/- ### Settlement operation -/

/-- The loop body of `settle_expenses` over the materialized
`SELECT ... FROM expenses` row list: copy the row into `expenses_settled`
under the settlement id, copy its `debts` rows into `debts_settled` under the
fresh archived expense id, then delete the live row and its debts. -/
def settleLoop (s_id : Nat) : List ExpenseRow → DB → DB
  | [], st => st
  | e :: rest, st =>
    let newId := st.nextSettledExpenseId
    let debtorsOfE := (st.debts.filter (fun d => d.1 = e.e_id)).map (fun d => d.2)
    settleLoop s_id rest
      { st with
          expenses_settled := st.expenses_settled
            ++ [⟨newId, e.e_cost, e.e_title, e.e_date, e.e_payer, s_id⟩],
          nextSettledExpenseId := newId + 1,
          debts_settled := st.debts_settled ++ debtorsOfE.map (fun d => (newId, d)),
          expenses := st.expenses.filter (fun r => ¬ r.e_id = e.e_id),
          debts := st.debts.filter (fun d => ¬ d.1 = e.e_id) }

/-- `settle_expenses`: insert one `settles` row stamped `now`
(`datetime.datetime.now()` passed explicitly), then archive and delete every
live expense. -/
def settle_expenses (now : String) (st : DB) : DB :=
  let s_id := st.nextSettleId
  let st1 := { st with settles := st.settles ++ [(s_id, now)],
                       nextSettleId := s_id + 1 }
  settleLoop s_id st1.expenses st1

/- ### Netting-engine lemmas -/

lemma update2_same (M : Mat) (a b : String) (v : ℚ) : update2 M a b v a b = v := by
  simp [update2]

lemma update2_ne (M : Mat) (a b : String) (v : ℚ) {x y : String}
    (h : ¬ (x = a ∧ y = b)) : update2 M a b v x y = M x y := by
  simp only [update2, if_neg h]

lemma update2_nonneg {M : Mat} {a b : String} {v : ℚ}
    (h : ∀ x y, 0 ≤ M x y) (hv : 0 ≤ v) (x y : String) : 0 ≤ update2 M a b v x y := by
  unfold update2
  split_ifs
  · exact hv
  · exact h x y

lemma update2_zero {M : Mat} {a b : String} {v : ℚ}
    (h : ∀ x y, M x y = 0) (hv : v = 0) (x y : String) : update2 M a b v x y = 0 := by
  unfold update2
  split_ifs
  · exact hv
  · exact h x y

lemma netStep_lt {M : Mat} {c p : String} (h : M c p < M p c) : netStep M c p = M := by
  unfold netStep
  rw [if_neg (lt_asymm h), if_neg (ne_of_lt h)]

/-- After the step at `(c, p)` the pair is either netted (one of the two
directions is zero) or the matrix is untouched because `M c p` was the
strictly smaller side. -/
lemma netStep_self (M : Mat) (c p : String) :
    (netStep M c p c p = 0 ∨ netStep M c p p c = 0) ∨
      (netStep M c p = M ∧ M c p < M p c) := by
  rcases lt_trichotomy (M c p) (M p c) with h | h | h
  · exact Or.inr ⟨netStep_lt h, h⟩
  · left; right
    unfold netStep
    rw [if_neg (by rw [h]; exact lt_irrefl _), if_pos h, update2_same]
  · left; right
    unfold netStep
    rw [if_pos h, update2_same]

lemma netStep_preserve {M : Mat} {c p x y : String}
    (hcp : ¬ (x = c ∧ y = p)) (hpc : ¬ (x = p ∧ y = c)) :
    netStep M c p x y = M x y := by
  unfold netStep
  split_ifs with h1 h2
  · rw [update2_ne _ _ _ _ hpc, update2_ne _ _ _ _ hcp]
  · rw [update2_ne _ _ _ _ hpc, update2_ne _ _ _ _ hcp]
  · rfl

lemma netStep_diag (M : Mat) (u : String) : netStep M u u u u = 0 := by
  unfold netStep
  rw [if_neg (lt_irrefl _), if_pos rfl, update2_same]

lemma netStep_nonneg {M : Mat} (h : ∀ a b, 0 ≤ M a b) (c p x y : String) :
    0 ≤ netStep M c p x y := by
  unfold netStep
  split_ifs
  · exact update2_nonneg (update2_nonneg h (abs_nonneg _)) le_rfl x y
  · exact update2_nonneg (update2_nonneg h le_rfl) le_rfl x y
  · exact h x y

lemma netStep_zero {M : Mat} (h : ∀ a b, M a b = 0) (c p x y : String) :
    netStep M c p x y = 0 := by
  unfold netStep
  rw [if_neg (by rw [h c p, h p c]; exact lt_irrefl _), if_pos (by rw [h c p, h p c])]
  exact update2_zero (update2_zero h rfl) rfl x y

/-- The ordered pairs visited by the double loop of the netting pass. -/
def pairList (ns : List String) : List (String × String) :=
  ns.flatMap (fun c => ns.map (fun p => (c, p)))

/-- The netting pass as a single fold over its visited pairs. -/
def foldSteps (L : List (String × String)) (M : Mat) : Mat :=
  L.foldl (fun M cp => netStep M cp.1 cp.2) M

lemma foldSteps_cons (cp : String × String) (L : List (String × String)) (M : Mat) :
    foldSteps (cp :: L) M = foldSteps L (netStep M cp.1 cp.2) := rfl

lemma mem_pairList {ns : List String} {a b : String} :
    (a, b) ∈ pairList ns ↔ a ∈ ns ∧ b ∈ ns := by
  simp only [pairList, List.mem_flatMap, List.mem_map]
  constructor
  · rintro ⟨c, hc, p, hp, heq⟩
    cases heq
    exact ⟨hc, hp⟩
  · rintro ⟨ha, hb⟩
    exact ⟨a, ha, b, hb, rfl⟩

lemma nettingPass_eq_foldSteps (ns : List String) :
    ∀ (outer : List String) (M : Mat),
      outer.foldl (fun M c => ns.foldl (fun M p => netStep M c p) M) M
        = foldSteps (outer.flatMap (fun c => ns.map (fun p => (c, p)))) M := by
  intro outer
  induction outer with
  | nil => intro M; rfl
  | cons c rest ih =>
    intro M
    simp only [List.foldl_cons, List.flatMap_cons, foldSteps, List.foldl_append,
      List.foldl_map]
    exact ih _

lemma nettingPass_pairList (ns : List String) (M : Mat) :
    nettingPass ns M = foldSteps (pairList ns) M :=
  nettingPass_eq_foldSteps ns ns M

/-- Main invariant of the netting pass: a pair `{x, y}` ends netted provided
the remaining step list still visits the pair in both orders, or the pair is
already netted, or it is strictly unbalanced and the order that nets it is
still to come. -/
lemma foldSteps_netted (x y : String) (hxy : x ≠ y) :
    ∀ (L : List (String × String)) (M : Mat),
      ((M x y = 0 ∨ M y x = 0) ∨
        ((x, y) ∈ L ∧ (y, x) ∈ L) ∨
        ((x, y) ∈ L ∧ M y x < M x y) ∨
        ((y, x) ∈ L ∧ M x y < M y x)) →
      foldSteps L M x y = 0 ∨ foldSteps L M y x = 0 := by
  intro L
  induction L with
  | nil =>
    intro M h
    rcases h with h | ⟨h, _⟩ | ⟨h, _⟩ | ⟨h, _⟩
    · exact h
    all_goals simp at h
  | cons cp L' ih =>
    intro M h
    obtain ⟨c, p⟩ := cp
    rw [foldSteps_cons]
    by_cases hc1 : (c, p) = (x, y)
    · rw [Prod.mk.injEq] at hc1
      obtain ⟨rfl, rfl⟩ := hc1
      rcases netStep_self M c p with hnet | ⟨heq, hlt⟩
      · exact ih _ (Or.inl hnet)
      · rw [heq]
        apply ih M
        rcases h with h | ⟨_, hm2⟩ | ⟨_, hlt'⟩ | ⟨hm1, _⟩
        · exact Or.inl h
        · refine Or.inr (Or.inr (Or.inr ⟨?_, hlt⟩))
          rcases List.mem_cons.mp hm2 with heq2 | hm2'
          · rw [Prod.mk.injEq] at heq2
            exact absurd heq2.1 hxy.symm
          · exact hm2'
        · exact absurd hlt (lt_asymm hlt')
        · refine Or.inr (Or.inr (Or.inr ⟨?_, hlt⟩))
          rcases List.mem_cons.mp hm1 with heq2 | hm1'
          · rw [Prod.mk.injEq] at heq2
            exact absurd heq2.1 hxy.symm
          · exact hm1'
    · by_cases hc2 : (c, p) = (y, x)
      · rw [Prod.mk.injEq] at hc2
        obtain ⟨rfl, rfl⟩ := hc2
        rcases netStep_self M c p with hnet | ⟨heq, hlt⟩
        · exact ih _ (Or.inl hnet.symm)
        · rw [heq]
          apply ih M
          rcases h with h | ⟨hm1, _⟩ | ⟨hm1, _⟩ | ⟨_, hlt'⟩
          · exact Or.inl h
          · refine Or.inr (Or.inr (Or.inl ⟨?_, hlt⟩))
            rcases List.mem_cons.mp hm1 with heq2 | hm1'
            · rw [Prod.mk.injEq] at heq2
              exact absurd heq2.1 hxy
            · exact hm1'
          · refine Or.inr (Or.inr (Or.inl ⟨?_, hlt⟩))
            rcases List.mem_cons.mp hm1 with heq2 | hm1'
            · rw [Prod.mk.injEq] at heq2
              exact absurd heq2.1 hxy
            · exact hm1'
          · exact absurd hlt (lt_asymm hlt')
      · have hxyp : netStep M c p x y = M x y := by
          refine netStep_preserve ?_ ?_
          · rintro ⟨rfl, rfl⟩
            exact hc1 rfl
          · rintro ⟨rfl, rfl⟩
            exact hc2 rfl
        have hyxp : netStep M c p y x = M y x := by
          refine netStep_preserve ?_ ?_
          · rintro ⟨rfl, rfl⟩
            exact hc2 rfl
          · rintro ⟨rfl, rfl⟩
            exact hc1 rfl
        apply ih
        rcases h with h | ⟨hm1, hm2⟩ | ⟨hm1, hlt'⟩ | ⟨hm1, hlt'⟩
        · rw [hxyp, hyxp]
          exact Or.inl h
        · refine Or.inr (Or.inl ⟨?_, ?_⟩)
          · rcases List.mem_cons.mp hm1 with heq2 | hm1'
            · exact absurd heq2.symm hc1
            · exact hm1'
          · rcases List.mem_cons.mp hm2 with heq2 | hm2'
            · exact absurd heq2.symm hc2
            · exact hm2'
        · refine Or.inr (Or.inr (Or.inl ⟨?_, by rw [hxyp, hyxp]; exact hlt'⟩))
          rcases List.mem_cons.mp hm1 with heq2 | hm1'
          · exact absurd heq2.symm hc1
          · exact hm1'
        · refine Or.inr (Or.inr (Or.inr ⟨?_, by rw [hxyp, hyxp]; exact hlt'⟩))
          rcases List.mem_cons.mp hm1 with heq2 | hm1'
          · exact absurd heq2.symm hc2
          · exact hm1'

/-- After the full netting pass, two distinct users are never both owing each
other. -/
lemma nettingPass_netted {ns : List String} {x y : String} (M : Mat)
    (hx : x ∈ ns) (hy : y ∈ ns) (hxy : x ≠ y) :
    nettingPass ns M x y = 0 ∨ nettingPass ns M y x = 0 := by
  rw [nettingPass_pairList]
  exact foldSteps_netted x y hxy (pairList ns) M
    (Or.inr (Or.inl ⟨mem_pairList.mpr ⟨hx, hy⟩, mem_pairList.mpr ⟨hy, hx⟩⟩))

lemma foldSteps_diag (u : String) :
    ∀ (L : List (String × String)) (M : Mat),
      ((u, u) ∈ L ∨ M u u = 0) → foldSteps L M u u = 0 := by
  intro L
  induction L with
  | nil =>
    intro M h
    rcases h with h | h
    · simp at h
    · exact h
  | cons cp L' ih =>
    intro M h
    obtain ⟨c, p⟩ := cp
    rw [foldSteps_cons]
    by_cases hcp : (c, p) = (u, u)
    · rw [Prod.mk.injEq] at hcp
      rw [hcp.1, hcp.2]
      exact ih _ (Or.inr (netStep_diag M u))
    · apply ih
      rcases h with h | h
      · rcases List.mem_cons.mp h with heq | h'
        · exact absurd heq.symm hcp
        · exact Or.inl h'
      · right
        rw [netStep_preserve ?_ ?_]
        · exact h
        · rintro ⟨rfl, rfl⟩
          exact hcp rfl
        · rintro ⟨rfl, rfl⟩
          exact hcp rfl

lemma nettingPass_diag {ns : List String} {u : String} (M : Mat) (hu : u ∈ ns) :
    nettingPass ns M u u = 0 := by
  rw [nettingPass_pairList]
  exact foldSteps_diag u (pairList ns) M (Or.inl (mem_pairList.mpr ⟨hu, hu⟩))

lemma foldSteps_nonneg :
    ∀ (L : List (String × String)) (M : Mat),
      (∀ a b, 0 ≤ M a b) → ∀ a b, 0 ≤ foldSteps L M a b := by
  intro L
  induction L with
  | nil => intro M h; exact h
  | cons cp L' ih =>
    intro M h
    rw [foldSteps_cons]
    exact ih _ (fun a b => netStep_nonneg h cp.1 cp.2 a b)

lemma nettingPass_nonneg {ns : List String} {M : Mat}
    (h : ∀ a b, 0 ≤ M a b) (a b : String) : 0 ≤ nettingPass ns M a b := by
  rw [nettingPass_pairList]
  exact foldSteps_nonneg (pairList ns) M h a b

lemma foldSteps_zero :
    ∀ (L : List (String × String)) (M : Mat),
      (∀ a b, M a b = 0) → ∀ a b, foldSteps L M a b = 0 := by
  intro L
  induction L with
  | nil => intro M h; exact h
  | cons cp L' ih =>
    intro M h
    rw [foldSteps_cons]
    exact ih _ (fun a b => netStep_zero h cp.1 cp.2 a b)

lemma nettingPass_zero {ns : List String} {M : Mat}
    (h : ∀ a b, M a b = 0) (a b : String) : nettingPass ns M a b = 0 := by
  rw [nettingPass_pairList]
  exact foldSteps_zero (pairList ns) M h a b

/- ### statusRows lemmas -/

lemma statusRows_mem {ns : List String} {M : Mat} {p c : String} {a : ℚ}
    (h : (p, c, a) ∈ statusRows ns M) :
    c ∈ ns ∧ p ∈ ns ∧ ¬ M c p = 0 ∧ a = M c p := by
  simp only [statusRows, List.mem_flatMap, List.mem_map, List.mem_filter,
    decide_eq_true_eq] at h
  obtain ⟨c', hc', p', ⟨hp', hne⟩, heq⟩ := h
  cases heq
  exact ⟨hc', hp', hne, rfl⟩

lemma statusRows_zero {ns : List String} {M : Mat}
    (h : ∀ a b, M a b = 0) : statusRows ns M = [] := by
  simp [statusRows, h]

/- ### mapExcept lemmas -/

lemma mapExcept_ok_length {α β : Type} {f : α → Except Err β} :
    ∀ (l : List α) (l' : List β), mapExcept f l = .ok l' → l'.length = l.length := by
  intro l
  induction l with
  | nil =>
    intro l' h
    simp only [mapExcept] at h
    cases h
    rfl
  | cons a as ih =>
    intro l' h
    simp only [mapExcept] at h
    cases hfa : f a with
    | error e => rw [hfa] at h; simp at h
    | ok b =>
      rw [hfa] at h
      cases hrec : mapExcept f as with
      | error e => rw [hrec] at h; simp at h
      | ok bs =>
        rw [hrec] at h
        cases h
        simp [ih bs hrec]

lemma mapExcept_ok_mem {α β : Type} {f : α → Except Err β} :
    ∀ (l : List α) (l' : List β), mapExcept f l = .ok l' →
      ∀ b ∈ l', ∃ a ∈ l, f a = .ok b := by
  intro l
  induction l with
  | nil =>
    intro l' h b hb
    simp only [mapExcept] at h
    cases h
    simp at hb
  | cons a as ih =>
    intro l' h b hb
    simp only [mapExcept] at h
    cases hfa : f a with
    | error e => rw [hfa] at h; simp at h
    | ok b0 =>
      rw [hfa] at h
      cases hrec : mapExcept f as with
      | error e => rw [hrec] at h; simp at h
      | ok bs =>
        rw [hrec] at h
        cases h
        rcases List.mem_cons.mp hb with rfl | hb'
        · exact ⟨a, List.mem_cons_self a as, hfa⟩
        · obtain ⟨a', ha', hfa'⟩ := ih bs hrec b hb'
          exact ⟨a', List.mem_cons_of_mem a ha', hfa'⟩

lemma mapExcept_ok_of_all {α β : Type} {f : α → Except Err β} :
    ∀ (l : List α), (∀ a ∈ l, ∃ b, f a = .ok b) → ∃ l', mapExcept f l = .ok l' := by
  intro l
  induction l with
  | nil => intro _; exact ⟨[], rfl⟩
  | cons a as ih =>
    intro h
    obtain ⟨b, hb⟩ := h a (List.mem_cons_self a as)
    obtain ⟨bs, hbs⟩ := ih (fun a' ha' => h a' (List.mem_cons_of_mem a ha'))
    refine ⟨b :: bs, ?_⟩
    simp only [mapExcept]
    rw [hb, hbs]

lemma mapExcept_error {α β : Type} {f : α → Except Err β} :
    ∀ (l : List α) (e : Err), mapExcept f l = .error e → ∃ a ∈ l, f a = .error e := by
  intro l
  induction l with
  | nil =>
    intro e h
    simp only [mapExcept] at h
    simp at h
  | cons a as ih =>
    intro e h
    simp only [mapExcept] at h
    cases hfa : f a with
    | error e0 =>
      rw [hfa] at h
      cases h
      exact ⟨a, List.mem_cons_self a as, hfa⟩
    | ok b =>
      rw [hfa] at h
      cases hrec : mapExcept f as with
      | error e0 =>
        rw [hrec] at h
        cases h
        obtain ⟨a', ha', hfa'⟩ := ih e hrec
        exact ⟨a', List.mem_cons_of_mem a ha', hfa'⟩
      | ok bs => rw [hrec] at h; simp at h

/- ### Sorting lemmas -/

lemma char_toNat_inj {a b : Char} (h : a.toNat = b.toNat) : a = b :=
  Char.eq_of_val_eq (UInt32.ext h)

lemma memcmpLt_irrefl : ∀ l : List Char, memcmpLt l l = false
  | [] => rfl
  | a :: as => by
    unfold memcmpLt
    rw [if_pos rfl]
    exact memcmpLt_irrefl as

lemma memcmpLt_asymm : ∀ l1 l2 : List Char,
    memcmpLt l1 l2 = true → memcmpLt l2 l1 = false
  | [], [] => by intro h; cases h
  | [], _ :: _ => fun _ => rfl
  | _ :: _, [] => by intro h; cases h
  | a :: as, b :: bs => by
    unfold memcmpLt
    intro h
    by_cases hab : a = b
    · rw [if_pos hab] at h
      rw [if_pos hab.symm]
      exact memcmpLt_asymm as bs h
    · rw [if_neg hab] at h
      rw [if_neg (fun hc => hab hc.symm)]
      simp only [decide_eq_true_eq] at h
      simp only [decide_eq_false_iff_not]
      omega

lemma memcmpLt_trans : ∀ l1 l2 l3 : List Char,
    memcmpLt l1 l2 = true → memcmpLt l2 l3 = true → memcmpLt l1 l3 = true
  | [], [], _ => by intro h _; cases h
  | [], _ :: _, [] => by intro _ h; cases h
  | [], _ :: _, _ :: _ => fun _ _ => rfl
  | _ :: _, [], _ => by intro h _; cases h
  | _ :: _, _ :: _, [] => by intro _ h; cases h
  | a :: as, b :: bs, c :: cs => by
    unfold memcmpLt
    intro h1 h2
    by_cases hab : a = b <;> by_cases hbc : b = c
    · rw [if_pos hab] at h1
      rw [if_pos hbc] at h2
      rw [if_pos (hab.trans hbc)]
      exact memcmpLt_trans as bs cs h1 h2
    · rw [if_pos hab] at h1
      rw [if_neg hbc] at h2
      rw [hab, if_neg hbc]
      exact h2
    · rw [if_neg hab] at h1
      rw [if_pos hbc] at h2
      rw [← hbc, if_neg hab]
      exact h1
    · rw [if_neg hab] at h1
      rw [if_neg hbc] at h2
      simp only [decide_eq_true_eq] at h1 h2
      have hac : ¬ a = c := by
        intro hc
        rw [hc] at h1
        omega
      rw [if_neg hac]
      simp only [decide_eq_true_eq]
      omega

lemma memcmpLt_total : ∀ l1 l2 : List Char,
    memcmpLt l1 l2 = false → memcmpLt l2 l1 = true ∨ l1 = l2
  | [], [] => fun _ => Or.inr rfl
  | [], _ :: _ => by intro h; cases h
  | _ :: _, [] => fun _ => Or.inl rfl
  | a :: as, b :: bs => by
    unfold memcmpLt
    intro h
    by_cases hab : a = b
    · rw [if_pos hab] at h
      rcases memcmpLt_total as bs h with h' | heq
      · left
        rw [if_pos hab.symm]
        exact h'
      · right
        rw [hab, heq]
    · rw [if_neg hab] at h
      simp only [decide_eq_false_iff_not] at h
      left
      rw [if_neg (fun hc => hab hc.symm)]
      simp only [decide_eq_true_eq]
      have hne : a.toNat ≠ b.toNat := fun hc => hab (char_toNat_inj hc)
      omega

lemma string_eq_of_toList {a b : String} (h : a.toList = b.toList) : a = b := by
  cases a
  cases b
  exact congrArg String.mk (by simpa using h)

lemma dateLt_asymm {a b : String} (h : dateLt a b = true) : dateLt b a = false :=
  memcmpLt_asymm _ _ h

lemma dateLe_of_not_le {a b : String} (h : ¬ dateLe a b = true) : dateLt b a = true := by
  cases hb : dateLt b a
  · exact absurd (by simp [dateLe, hb]) h
  · rfl

lemma dateLe_lt_or_eq {a b : String} (h : dateLe a b = true) :
    dateLt a b = true ∨ a = b := by
  simp only [dateLe, Bool.not_eq_true'] at h
  rcases memcmpLt_total b.toList a.toList h with h' | heq
  · exact Or.inl h'
  · exact Or.inr (string_eq_of_toList heq).symm

lemma dateLe_trans {a b c : String} (h1 : dateLe a b = true) (h2 : dateLe b c = true) :
    dateLe a c = true := by
  simp only [dateLe, dateLt, Bool.not_eq_true'] at h1 h2 ⊢
  by_contra hcon
  rw [Bool.not_eq_false] at hcon
  rcases memcmpLt_total _ _ h2 with h' | heq
  · have ht := memcmpLt_trans _ _ _ h' hcon
    rw [ht] at h1
    cases h1
  · rw [heq] at hcon
    rw [hcon] at h1
    cases h1

/-- The strict order "earlier date, or same date and earlier id". -/
def expLt (a b : ExpenseRow) : Prop :=
  dateLt a.e_date b.e_date = true ∨ (a.e_date = b.e_date ∧ a.e_id < b.e_id)

lemma expLt_date_le {a b : ExpenseRow} (h : expLt a b) :
    dateLe a.e_date b.e_date = true := by
  rcases h with h | ⟨h, _⟩
  · simp only [dateLe, Bool.not_eq_true']
    exact dateLt_asymm h
  · simp only [dateLe, h, Bool.not_eq_true', dateLt]
    exact memcmpLt_irrefl _

lemma mem_insertByDate {r y : ExpenseRow} :
    ∀ {l : List ExpenseRow}, y ∈ insertByDate r l ↔ y = r ∨ y ∈ l := by
  intro l
  induction l with
  | nil => simp [insertByDate]
  | cons x xs ih =>
    unfold insertByDate
    split_ifs with h
    · simp [List.mem_cons]
    · rw [List.mem_cons, ih, List.mem_cons]
      tauto

lemma insertByDate_perm (r : ExpenseRow) :
    ∀ (l : List ExpenseRow), List.Perm (insertByDate r l) (r :: l) := by
  intro l
  induction l with
  | nil => exact List.Perm.refl _
  | cons x xs ih =>
    unfold insertByDate
    split_ifs with h
    · exact List.Perm.refl _
    · exact (ih.cons x).trans (List.Perm.swap r x xs)

lemma sortByDate_perm : ∀ (l : List ExpenseRow), List.Perm (sortByDate l) l := by
  intro l
  induction l with
  | nil => exact List.Perm.refl _
  | cons r rs ih =>
    exact (insertByDate_perm r (sortByDate rs)).trans (ih.cons r)

lemma mem_sortByDate {y : ExpenseRow} {l : List ExpenseRow} :
    y ∈ sortByDate l ↔ y ∈ l :=
  (sortByDate_perm l).mem_iff

lemma insertByDate_pairwise {r : ExpenseRow} :
    ∀ {l : List ExpenseRow}, l.Pairwise expLt → (∀ x ∈ l, r.e_id < x.e_id) →
      (insertByDate r l).Pairwise expLt := by
  intro l
  induction l with
  | nil =>
    intro _ _
    simp [insertByDate, expLt]
  | cons x xs ih =>
    intro h hr
    unfold insertByDate
    split_ifs with hle
    · refine List.Pairwise.cons ?_ h
      intro y hy
      have hdle : dateLe r.e_date y.e_date = true := by
        rcases List.mem_cons.mp hy with rfl | hy'
        · exact hle
        · exact dateLe_trans hle (expLt_date_le ((List.pairwise_cons.mp h).1 y hy'))
      rcases dateLe_lt_or_eq hdle with hlt | heq
      · exact Or.inl hlt
      · exact Or.inr ⟨heq, hr y hy⟩
    · rw [List.pairwise_cons] at h
      refine List.Pairwise.cons ?_ (ih h.2 (fun z hz => hr z (List.mem_cons_of_mem x hz)))
      intro y hy
      rcases mem_insertByDate.mp hy with rfl | hy'
      · exact Or.inl (dateLe_of_not_le hle)
      · exact h.1 y hy'

lemma sortByDate_pairwise :
    ∀ {l : List ExpenseRow}, l.Pairwise (fun a b => a.e_id < b.e_id) →
      (sortByDate l).Pairwise expLt := by
  intro l
  induction l with
  | nil =>
    intro _
    exact List.Pairwise.nil
  | cons r rs ih =>
    intro h
    rw [List.pairwise_cons] at h
    exact insertByDate_pairwise (ih h.2) (fun x hx => h.1 x (mem_sortByDate.mp hx))

/- ### Gross-accumulation lemmas -/

lemma grossFold_cons_err {st : DB} {e : ExpenseRow} {payer : String}
    {rest : List (ExpenseRow × String)} {M : Mat} {err : Err}
    (hdn : get_debtors_named st e.e_id = .error err) :
    grossFold st ((e, payer) :: rest) M = .error err := by
  simp only [grossFold, hdn]

lemma grossFold_cons_ok {st : DB} {e : ExpenseRow} {payer : String}
    {rest : List (ExpenseRow × String)} {M : Mat} {debtors : List String}
    (hdn : get_debtors_named st e.e_id = .ok debtors) :
    grossFold st ((e, payer) :: rest) M =
      if debtors.length = 0 then .error .zeroDiv
      else grossFold st rest
        (addShares M payer debtors (e.e_cost / (debtors.length : ℚ))) := by
  simp only [grossFold, hdn]

lemma addShares_nonneg {payer : String} {share : ℚ} (hs : 0 ≤ share) :
    ∀ (debtors : List String) (M : Mat),
      (∀ a b, 0 ≤ M a b) → ∀ a b, 0 ≤ addShares M payer debtors share a b := by
  intro debtors
  induction debtors with
  | nil => intro M h; exact h
  | cons d ds ih =>
    intro M h
    unfold addShares
    refine ih _ (fun a b => ?_)
    unfold addShare
    exact update2_nonneg h (add_nonneg (h payer d) hs) a b

lemma grossFold_nonneg (st : DB) :
    ∀ (L : List (ExpenseRow × String)) (M G : Mat),
      (∀ pe ∈ L, 0 ≤ pe.1.e_cost) → (∀ a b, 0 ≤ M a b) →
      grossFold st L M = .ok G → ∀ a b, 0 ≤ G a b := by
  intro L
  induction L with
  | nil =>
    intro M G _ hM h
    have h' : (Except.ok M : Except Err Mat) = .ok G := h
    injection h' with h''
    rw [← h'']
    exact hM
  | cons pe rest ih =>
    intro M G hc hM h
    obtain ⟨e, payer⟩ := pe
    cases hdn : get_debtors_named st e.e_id with
    | error err => rw [grossFold_cons_err hdn] at h; simp at h
    | ok debtors =>
      rw [grossFold_cons_ok hdn] at h
      by_cases hlen : debtors.length = 0
      · rw [if_pos hlen] at h
        exact Except.noConfusion h
      · rw [if_neg hlen] at h
        refine ih _ G (fun pe' hpe' => hc pe' (List.mem_cons_of_mem _ hpe')) ?_ h
        apply addShares_nonneg
        · apply div_nonneg
          · exact hc (e, payer) (List.mem_cons_self _ _)
          · exact Nat.cast_nonneg _
        · exact hM

lemma grossFold_ne_zeroDiv (st : DB) :
    ∀ (L : List (ExpenseRow × String)) (M : Mat),
      (∀ pe ∈ L, get_debtors st pe.1.e_id ≠ []) →
      grossFold st L M ≠ .error .zeroDiv := by
  intro L
  induction L with
  | nil =>
    intro M _ h
    simp [grossFold] at h
  | cons pe rest ih =>
    intro M hne h
    obtain ⟨e, payer⟩ := pe
    cases hdn : get_debtors_named st e.e_id with
    | error err =>
      rw [grossFold_cons_err hdn] at h
      obtain ⟨i, _, hfi⟩ := mapExcept_error _ err hdn
      cases hl : List.lookup i st.users with
      | some n => rw [hl] at hfi; simp at hfi
      | none =>
        rw [hl] at hfi
        injection hfi with hfe
        injection h with he
        rw [← hfe] at he
        cases he
    | ok debtors =>
      rw [grossFold_cons_ok hdn] at h
      by_cases hlen : debtors.length = 0
      · have hle := mapExcept_ok_length (get_debtors st e.e_id) debtors hdn
        rw [hlen] at hle
        exact hne (e, payer) (List.mem_cons_self _ _)
          (List.length_eq_zero.mp hle.symm)
      · rw [if_neg hlen] at h
        exact ih _ (fun pe' h' => hne pe' (List.mem_cons_of_mem _ h')) h

lemma grossFold_ok (st : DB) :
    ∀ (L : List (ExpenseRow × String)) (M : Mat),
      (∀ pe ∈ L, get_debtors st pe.1.e_id ≠ []) →
      (∀ d ∈ st.debts, (List.lookup d.2 st.users).isSome) →
      ∃ G, grossFold st L M = .ok G := by
  intro L
  induction L with
  | nil =>
    intro M _ _
    exact ⟨M, rfl⟩
  | cons pe rest ih =>
    intro M hne hd
    obtain ⟨e, payer⟩ := pe
    have hdn : ∃ debtors, get_debtors_named st e.e_id = .ok debtors := by
      apply mapExcept_ok_of_all
      intro i hi
      simp only [get_debtors, List.mem_map, List.mem_filter] at hi
      obtain ⟨d, ⟨hd', _⟩, rfl⟩ := hi
      have hs := hd d hd'
      cases hl : List.lookup d.2 st.users with
      | none => rw [hl] at hs; simp at hs
      | some n => exact ⟨n, rfl⟩
    obtain ⟨debtors, hdn⟩ := hdn
    have hlen : ¬ debtors.length = 0 := by
      have hle := mapExcept_ok_length (get_debtors st e.e_id) debtors hdn
      intro hc
      rw [hc] at hle
      exact hne (e, payer) (List.mem_cons_self _ _)
        (List.length_eq_zero.mp hle.symm)
    obtain ⟨G, hG⟩ := ih (addShares M payer debtors (e.e_cost / (debtors.length : ℚ)))
      (fun pe' h' => hne pe' (List.mem_cons_of_mem _ h')) hd
    refine ⟨G, ?_⟩
    rw [grossFold_cons_ok hdn, if_neg hlen]
    exact hG

/- ### Unfolding lemmas for the status computation -/

lemma get_status_dict_err1 {st : DB} {e : Err}
    (h1 : get_expenses_named st = .error e) : get_status_dict st = .error e := by
  simp only [get_status_dict, h1]

lemma get_status_dict_err2 {st : DB} {named : List (ExpenseRow × String)} {e : Err}
    (h1 : get_expenses_named st = .ok named)
    (h2 : grossFold st named zeroMat = .error e) : get_status_dict st = .error e := by
  simp only [get_status_dict, h1, h2]

lemma get_status_dict_eq {st : DB} {named : List (ExpenseRow × String)} {G : Mat}
    (h1 : get_expenses_named st = .ok named)
    (h2 : grossFold st named zeroMat = .ok G) :
    get_status_dict st = .ok (nettingPass (usersNames st) G) := by
  simp only [get_status_dict, h1, h2]

lemma get_status_list_err {st : DB} {e : Err}
    (h : get_status_dict st = .error e) : get_status_list st = .error e := by
  simp only [get_status_list, h]

lemma get_status_list_eq {st : DB} {M : Mat}
    (h : get_status_dict st = .ok M) :
    get_status_list st = .ok (statusRows (usersNames st) M) := by
  simp only [get_status_list, h]

/-- Unfolding of a successful `get_status_dict` run into its stages. -/
lemma get_status_dict_ok {st : DB} {M : Mat} (h : get_status_dict st = .ok M) :
    ∃ named G, get_expenses_named st = .ok named ∧ grossFold st named zeroMat = .ok G ∧
      M = nettingPass (usersNames st) G := by
  cases h1 : get_expenses_named st with
  | error e =>
    rw [get_status_dict_err1 h1] at h
    simp at h
  | ok named =>
    cases h2 : grossFold st named zeroMat with
    | error e =>
      rw [get_status_dict_err2 h1 h2] at h
      simp at h
    | ok G =>
      rw [get_status_dict_eq h1 h2] at h
      injection h with h'
      exact ⟨named, G, rfl, h2, h'.symm⟩

/-- Every element of a successful `get_expenses_named` run is a live expense
paired with some payer name. -/
lemma get_expenses_named_mem {st : DB} {named : List (ExpenseRow × String)}
    (h1 : get_expenses_named st = .ok named) :
    ∀ pe ∈ named, pe.1 ∈ st.expenses := by
  intro pe hpe
  obtain ⟨a, ha, hfa⟩ := mapExcept_ok_mem _ named h1 pe hpe
  cases hl : List.lookup a.e_payer st.users with
  | some n =>
    rw [hl] at hfa
    injection hfa with h'
    rw [← h']
    exact mem_sortByDate.mp ha
  | none => rw [hl] at hfa; simp at hfa

lemma get_status_dict_ne_zeroDiv (st : DB)
    (h : ∀ e ∈ st.expenses, get_debtors st e.e_id ≠ []) :
    get_status_dict st ≠ .error .zeroDiv := by
  cases h1 : get_expenses_named st with
  | error e =>
    rw [get_status_dict_err1 h1]
    obtain ⟨a, _, hfa⟩ := mapExcept_error _ e h1
    cases hl : List.lookup a.e_payer st.users with
    | some n => rw [hl] at hfa; simp at hfa
    | none =>
      rw [hl] at hfa
      injection hfa with he
      rw [← he]
      intro hc
      injection hc with he2
      cases he2
  | ok named =>
    cases h2 : grossFold st named zeroMat with
    | error e =>
      rw [get_status_dict_err2 h1 h2]
      have hne : ∀ pe ∈ named, get_debtors st pe.1.e_id ≠ [] :=
        fun pe hpe => h pe.1 (get_expenses_named_mem h1 pe hpe)
      have hz := grossFold_ne_zeroDiv st named zeroMat hne
      rw [h2] at hz
      exact hz
    | ok G =>
      rw [get_status_dict_eq h1 h2]
      simp

/- ### The concrete two-user scenario -/

/-- Users A and B with three live expenses: A pays 20 split over both, A pays
30 split over both, B pays 40 split over both (the `test_get_status_list`
scenario with the users named as in the spec). -/
def stC1 : DB where
  users := [(1, "A"), (2, "B")]
  expenses := [⟨1, 20, "t1", "20130101", 1⟩, ⟨2, 30, "t2", "20130101", 1⟩,
               ⟨3, 40, "t3", "20130101", 2⟩]
  debts := [(1, 1), (1, 2), (2, 1), (2, 2), (3, 1), (3, 2)]
  settles := []
  expenses_settled := []
  debts_settled := []
  nextUserId := 3
  nextExpenseId := 4
  nextSettleId := 1
  nextSettledExpenseId := 1


lemma update2_app (M : Mat) (a b x y : String) (v : ℚ) :
    update2 M a b v x y = if x = a ∧ y = b then v else M x y := rfl

set_option maxRecDepth 8000 in
set_option maxHeartbeats 1000000 in
lemma status_list_stC1_eval :
    get_status_list stC1 = .ok [("B", "A", (5 : ℚ))] := by
  simp only [stC1, get_status_list, get_status_dict, get_expenses_named, get_expenses,
    sortByDate, insertByDate, dateLe, dateLt, memcmpLt, mapExcept, List.lookup,
    grossFold, get_debtors_named, get_debtors, addShares, addShare, update2_app,
    zeroMat, nettingPass, netStep, statusRows, usersNames,
    List.map, List.filter, List.foldl, List.flatMap, List.append,
    Nat.reduceBEq, Nat.reduceEqDiff, beq_self_eq_true, Char.reduceEq,
    String.reduceEq, Nat.reduceDiv, List.length, Nat.cast_ofNat, Nat.reduceAdd,
    decide_True, decide_False, reduceIte, Bool.not_true, Bool.not_false,
    ite_true, ite_false, and_self, and_true, true_and, and_false, false_and]
  repeat (first
    | rfl
    | (norm_num only [update2_app]
       simp only [stC1, statusRows, usersNames, List.map, List.filter, List.flatMap,
         List.append, String.reduceEq, and_self, and_true, true_and, and_false,
         false_and, ite_true, ite_false, reduceIte, decide_True, decide_False,
         not_false_iff, not_true, Bool.not_true, Bool.not_false]))

/-- C1: on the concrete scenario (A pays 20 split {A,B}, A pays 30 split
{A,B}, B pays 40 split {A,B}), `get_status_list` returns exactly one triple:
B owes A the amount 5. -/
theorem get_status_list_scenario_netting :
    get_status_list stC1 = .ok [("B", "A", (5 : ℚ))] :=
  status_list_stC1_eval

/-- C4: for every ledger state on which `get_status_dict` succeeds and every
pair of distinct user names, the netted matrix never has both directions
non-zero — despite the in-place double loop visiting every ordered pair. -/
theorem netting_not_both_nonzero (st : DB) (M : Mat)
    (h : get_status_dict st = .ok M) (x y : String)
    (hx : x ∈ usersNames st) (hy : y ∈ usersNames st) (hxy : x ≠ y) :
    M x y = 0 ∨ M y x = 0 := by
  obtain ⟨named, G, _, _, rfl⟩ := get_status_dict_ok h
  exact nettingPass_netted G hx hy hxy

/-- The netted matrix of the concrete scenario, used to instantiate C4. -/
def statusDictC4 : Mat :=
  match get_status_dict stC1 with
  | .ok M => M
  | .error _ => zeroMat

theorem netting_not_both_nonzero_witness :
    statusDictC4 "A" "B" = 0 ∨ statusDictC4 "B" "A" = 0 :=
  netting_not_both_nonzero stC1 statusDictC4
    (rfl : get_status_dict stC1 = Except.ok statusDictC4) "A" "B"
    (by decide) (by decide) (by decide)

/-- C5: every triple `(p, c, a)` emitted by `get_status_list` over a state
whose live expenses all have positive cost has `a > 0` and `p ≠ c` — zero-net
pairs are omitted and self-pairs never appear, even when a payer is among
their own expense's debtors. -/
theorem status_amount_pos_distinct (st : DB) (rows : List (String × String × ℚ))
    (hcost : ∀ e ∈ st.expenses, 0 < e.e_cost)
    (hok : get_status_list st = .ok rows)
    (p c : String) (a : ℚ) (hmem : (p, c, a) ∈ rows) :
    0 < a ∧ p ≠ c := by
  cases h1 : get_status_dict st with
  | error e =>
    rw [get_status_list_err h1] at hok
    exact Except.noConfusion hok
  | ok M =>
    rw [get_status_list_eq h1] at hok
    injection hok with hok'
    rw [← hok'] at hmem
    obtain ⟨hc, hp, hne, ha⟩ := statusRows_mem hmem
    subst ha
    obtain ⟨named, G, h2, h3, hM⟩ := get_status_dict_ok h1
    subst hM
    have hGnn : ∀ a b, 0 ≤ G a b := by
      refine grossFold_nonneg st named zeroMat G ?_ (fun a b => le_refl 0) h3
      intro pe hpe
      exact le_of_lt (hcost pe.1 (get_expenses_named_mem h2 pe hpe))
    constructor
    · exact lt_of_le_of_ne (nettingPass_nonneg hGnn c p) (Ne.symm hne)
    · intro hpc
      rw [hpc] at hne
      exact hne (nettingPass_diag G hc)


theorem status_amount_pos_distinct_witness :
    (0 : ℚ) < 5 ∧ "B" ≠ "A" :=
  status_amount_pos_distinct stC1 [("B", "A", (5 : ℚ))] (by decide)
    status_list_stC1_eval "B" "A" 5 (by decide)

/-- C6: when every live expense has at least one share, the status
computation never raises `ZeroDivisionError`; if additionally every payer and
debtor id resolves against the users table, it returns a result. -/
theorem status_total_no_div_by_zero (st : DB)
    (h : ∀ e ∈ st.expenses, get_debtors st e.e_id ≠ []) :
    get_status_list st ≠ .error .zeroDiv ∧
      ((∀ e ∈ st.expenses, (List.lookup e.e_payer st.users).isSome) →
       (∀ d ∈ st.debts, (List.lookup d.2 st.users).isSome) →
       ∃ rows, get_status_list st = .ok rows) := by
  constructor
  · cases h1 : get_status_dict st with
    | error e =>
      rw [get_status_list_err h1]
      have hzd := get_status_dict_ne_zeroDiv st h
      rw [h1] at hzd
      have he : e ≠ .zeroDiv := fun hh => hzd (by rw [hh])
      intro hcon
      injection hcon with he2
      exact he he2
    | ok M =>
      rw [get_status_list_eq h1]
      simp
  · intro hp hd
    have h1 : ∃ named, get_expenses_named st = .ok named := by
      apply mapExcept_ok_of_all
      intro a ha
      have hps := hp a (mem_sortByDate.mp ha)
      cases hl : List.lookup a.e_payer st.users with
      | none => rw [hl] at hps; simp at hps
      | some n => exact ⟨(a, n), rfl⟩
    obtain ⟨named, h1⟩ := h1
    have h2 : ∃ G, grossFold st named zeroMat = .ok G := by
      refine grossFold_ok st named zeroMat ?_ hd
      exact fun pe hpe => h pe.1 (get_expenses_named_mem h1 pe hpe)
    obtain ⟨G, h2⟩ := h2
    exact ⟨statusRows (usersNames st) (nettingPass (usersNames st) G),
      get_status_list_eq (get_status_dict_eq h1 h2)⟩

theorem status_total_no_div_by_zero_witness :
    get_status_list stC1 ≠ .error .zeroDiv :=
  (status_total_no_div_by_zero stC1 (by decide)).1

/- ### C9: ordering of listExpenses -/

/-- A state with a date tie between expenses 1 and 3 to exercise the stable
tie-break. -/
def stC9 : DB where
  users := [(1, "A")]
  expenses := [⟨1, 1, "t1", "20130105", 1⟩, ⟨2, 2, "t2", "20130101", 1⟩,
               ⟨3, 3, "t3", "20130105", 1⟩]
  debts := [(1, 1), (2, 1), (3, 1)]
  settles := []
  expenses_settled := []
  debts_settled := []
  nextUserId := 2
  nextExpenseId := 4
  nextSettleId := 1
  nextSettledExpenseId := 1

/-- C9: over a state whose `expenses` table is in id (insertion) order,
`get_expenses` returns the same rows (a permutation) sorted by date
ascending, rows of equal date staying in id order. -/
theorem get_expenses_sorted_stable (st : DB)
    (h : st.expenses.Pairwise (fun a b => a.e_id < b.e_id)) :
    List.Perm (get_expenses st) st.expenses ∧
      (get_expenses st).Pairwise (fun a b =>
        dateLt a.e_date b.e_date = true ∨
          (a.e_date = b.e_date ∧ a.e_id < b.e_id)) :=
  ⟨sortByDate_perm st.expenses, sortByDate_pairwise h⟩

theorem get_expenses_sorted_stable_witness :
    List.Perm (get_expenses stC9) stC9.expenses ∧
      (get_expenses stC9).Pairwise (fun a b =>
        dateLt a.e_date b.e_date = true ∨
          (a.e_date = b.e_date ∧ a.e_id < b.e_id)) :=
  get_expenses_sorted_stable stC9 (by decide)

/- ### C3 and C10: insert/update behaviour -/

/-- C3: whenever `insert_expense` or `update_expense` raises any error, the
database is left exactly as it was: all validation and user/expense
resolution happens before any write. -/
theorem insert_update_expense_error_no_mutation (today : Nat) (st : DB)
    (e_id : Nat) (title : String) (cost : CostInput) (date : String)
    (payer : Nat) (debtors : List Nat) :
    ((insert_expense today st title cost date payer debtors).1.isSome →
      (insert_expense today st title cost date payer debtors).2 = st) ∧
    ((update_expense today st e_id title cost date payer debtors).1.isSome →
      (update_expense today st e_id title cost date payer debtors).2 = st) := by
  constructor
  · unfold insert_expense
    cases validate_expense_title title with
    | error e => exact fun _ => rfl
    | ok t' =>
      cases validate_expense_cost cost with
      | error e => exact fun _ => rfl
      | ok c' =>
        cases validate_expense_date today date with
        | error e => exact fun _ => rfl
        | ok d' =>
          cases validate_user_id st payer with
          | error e => exact fun _ => rfl
          | ok p' =>
            cases mapExcept (validate_user_id st) debtors with
            | error e => exact fun _ => rfl
            | ok ds' => intro hsome; simp at hsome
  · unfold update_expense
    cases validate_expense_id st e_id with
    | error e => exact fun _ => rfl
    | ok i' =>
      cases validate_expense_title title with
      | error e => exact fun _ => rfl
      | ok t' =>
        cases validate_expense_cost cost with
        | error e => exact fun _ => rfl
        | ok c' =>
          cases validate_expense_date today date with
          | error e => exact fun _ => rfl
          | ok d' =>
            cases validate_user_id st payer with
            | error e => exact fun _ => rfl
            | ok p' =>
              cases mapExcept (validate_user_id st) debtors with
              | error e => exact fun _ => rfl
              | ok ds' => intro hsome; simp at hsome

theorem insert_update_expense_error_no_mutation_witness :
    (insert_expense 20260101 stC1 " bad title" (.num 20) "20130101" 1 [1, 2]).2
      = stC1 :=
  (insert_update_expense_error_no_mutation 20260101 stC1 1 " bad title"
    (.num 20) "20130101" 1 [1, 2]).1 (by decide)

/-- C10: with valid title, cost and date, an existing payer and an *empty*
debtors list, `insert_expense` succeeds and creates an expense with zero
shares; `update_expense` likewise accepts an empty debtors list and leaves
the expense with zero shares.  The at-least-one-share invariant is not
enforced at this interface. -/
theorem insert_expense_empty_debtors_ok (today : Nat) (st : DB) (e_id : Nat)
    (title : String) (cost : CostInput) (date : String) (payer : Nat)
    (ht : ∃ t', validate_expense_title title = .ok t')
    (hc : ∃ c', validate_expense_cost cost = .ok c')
    (hd : ∃ d', validate_expense_date today date = .ok d')
    (hp : (List.lookup payer st.users).isSome)
    (hfresh : ∀ d ∈ st.debts, ¬ d.1 = st.nextExpenseId)
    (he : st.expenses.any (fun r => r.e_id = e_id)) :
    ((insert_expense today st title cost date payer []).1 = none ∧
      get_debtors (insert_expense today st title cost date payer []).2
        st.nextExpenseId = [] ∧
      ∃ r, (insert_expense today st title cost date payer []).2.expenses
        = st.expenses ++ [r] ∧ r.e_id = st.nextExpenseId) ∧
    ((update_expense today st e_id title cost date payer []).1 = none ∧
      get_debtors (update_expense today st e_id title cost date payer []).2
        e_id = []) := by
  obtain ⟨t', ht⟩ := ht
  obtain ⟨c', hc⟩ := hc
  obtain ⟨d', hd⟩ := hd
  have hvp : validate_user_id st payer = .ok payer := by
    unfold validate_user_id get_u_name
    cases hl : List.lookup payer st.users with
    | some n => rfl
    | none => rw [hl] at hp; simp at hp
  have hvid : validate_expense_id st e_id = .ok e_id := by
    unfold validate_expense_id
    rw [if_pos he]
  have hmap : mapExcept (validate_user_id st) ([] : List Nat) = .ok [] := rfl
  have key : insert_expense today st title cost date payer [] =
      (none, { st with
        expenses := st.expenses ++ [⟨st.nextExpenseId, c', t', d', payer⟩],
        nextExpenseId := st.nextExpenseId + 1,
        debts := st.debts ++ List.map (fun d => (st.nextExpenseId, d)) [] }) := by
    simp only [insert_expense, ht, hc, hd, hvp, hmap]
  have key2 : update_expense today st e_id title cost date payer [] =
      (none, { st with
        expenses := st.expenses.map (fun r =>
          if r.e_id = e_id then
            { r with e_cost := c', e_title := t', e_date := d', e_payer := payer }
          else r),
        debts := st.debts.filter (fun d => ¬ d.1 = e_id)
          ++ List.map (fun d => (e_id, d)) [] }) := by
    simp only [update_expense, hvid, ht, hc, hd, hvp, hmap]
  refine ⟨⟨by rw [key], ?_, ⟨⟨st.nextExpenseId, c', t', d', payer⟩, by rw [key], rfl⟩⟩,
    by rw [key2], ?_⟩
  · rw [key]
    simp only [get_debtors, List.map_nil, List.append_nil]
    rw [List.filter_eq_nil_iff.mpr]
    · rfl
    · intro d hdm
      simpa using hfresh d hdm
  · rw [key2]
    simp only [get_debtors, List.map_nil, List.append_nil]
    rw [List.filter_eq_nil_iff.mpr]
    · rfl
    · intro d hdm
      rw [List.mem_filter] at hdm
      simpa using hdm.2

/-- A one-user, one-expense state for instantiating C10. -/
def stC10 : DB where
  users := [(1, "A")]
  expenses := [⟨1, 7, "t1", "20130101", 1⟩]
  debts := [(1, 1)]
  settles := []
  expenses_settled := []
  debts_settled := []
  nextUserId := 2
  nextExpenseId := 2
  nextSettleId := 1
  nextSettledExpenseId := 1

theorem insert_expense_empty_debtors_ok_witness :
    ((insert_expense 20260101 stC10 "t" (.num 1) "20130101" 1 []).1 = none ∧
      get_debtors (insert_expense 20260101 stC10 "t" (.num 1) "20130101" 1 []).2
        stC10.nextExpenseId = [] ∧
      ∃ r, (insert_expense 20260101 stC10 "t" (.num 1) "20130101" 1 []).2.expenses
        = stC10.expenses ++ [r] ∧ r.e_id = stC10.nextExpenseId) ∧
    ((update_expense 20260101 stC10 1 "t" (.num 1) "20130101" 1 []).1 = none ∧
      get_debtors (update_expense 20260101 stC10 1 "t" (.num 1) "20130101" 1 []).2
        1 = []) :=
  insert_expense_empty_debtors_ok 20260101 stC10 1 "t" (.num 1) "20130101" 1
    ⟨"t", by decide⟩ ⟨1, by decide⟩ ⟨"20130101", by decide⟩
    (by decide) (by decide) (by decide)

/- ### C7 and C8: validators -/

/-- C7 counterexample: the string "3.5" parses entirely as a number (a
decimal fraction), yet `validate_username` accepts it — `int()` rejects it,
so the "cannot be a number" branch is never reached. -/
theorem validate_username_decimal_accepted :
    (pyFloat? "3.5").isSome = true ∧ validate_username "3.5" = .ok "3.5" :=
  ⟨by decide, by decide⟩

/-- C7 (amended): username validation fails `InvalidUsername` exactly when
the string differs from its trimmed form, is empty or all-whitespace,
contains a comma, or parses entirely as an *integer* (`int()`); otherwise it
returns the string unchanged.  Non-integer numerals are accepted. -/
theorem validate_username_spec (s : String) :
    (validate_username s = .error .illegalUsername ↔
      (s ≠ pyStrip s ∨ (s = "" ∨ pyIsSpace s = true) ∨
        s.toList.contains ',' = true ∨ (pyInt? s).isSome = true)) ∧
    (¬ (s ≠ pyStrip s ∨ (s = "" ∨ pyIsSpace s = true) ∨
        s.toList.contains ',' = true ∨ (pyInt? s).isSome = true) →
      validate_username s = .ok s) := by
  unfold validate_username
  split_ifs with h1 h2 h3 h4
  · exact ⟨⟨fun _ => Or.inl h1, fun _ => rfl⟩, fun hn => absurd (Or.inl h1) hn⟩
  · exact ⟨⟨fun _ => Or.inr (Or.inl h2), fun _ => rfl⟩,
      fun hn => absurd (Or.inr (Or.inl h2)) hn⟩
  · exact ⟨⟨fun _ => Or.inr (Or.inr (Or.inl h3)), fun _ => rfl⟩,
      fun hn => absurd (Or.inr (Or.inr (Or.inl h3))) hn⟩
  · exact ⟨⟨fun _ => Or.inr (Or.inr (Or.inr h4)), fun _ => rfl⟩,
      fun hn => absurd (Or.inr (Or.inr (Or.inr h4))) hn⟩
  · refine ⟨⟨fun hcon => by simp at hcon, fun hd => ?_⟩, fun _ => rfl⟩
    rcases hd with h | h | h | h
    · exact absurd h h1
    · exact absurd h h2
    · exact absurd h h3
    · exact absurd h h4

/-- C8: cost validation fails `InvalidCost` exactly when the input does not
parse as a real number or parses to a value that is not strictly positive;
otherwise it returns the parsed value.  In particular `0`, `-5` and a
non-numeric string all fail. -/
theorem validate_expense_cost_spec (c : CostInput) :
    (validate_expense_cost c = .error .illegalCost ↔
      (pyFloatOf c = none ∨ ∃ q, pyFloatOf c = some q ∧ ¬ 0 < q)) ∧
    (∀ q, pyFloatOf c = some q → 0 < q → validate_expense_cost c = .ok q) ∧
    validate_expense_cost (.num 0) = .error .illegalCost ∧
    validate_expense_cost (.num (-5)) = .error .illegalCost ∧
    validate_expense_cost (.str "abc") = .error .illegalCost := by
  refine ⟨?_, ?_, by decide, by decide, by decide⟩
  · cases hf : pyFloatOf c with
    | none =>
      have hv : validate_expense_cost c = .error .illegalCost := by
        simp only [validate_expense_cost, hf]
      constructor
      · intro _
        exact Or.inl rfl
      · intro _
        exact hv
    | some q =>
      have hv : validate_expense_cost c =
          if ¬ q > 0 then .error .illegalCost else .ok q := by
        simp only [validate_expense_cost, hf]
      by_cases hq : q > 0
      · rw [hv, if_neg (not_not_intro hq)]
        constructor
        · intro hcon
          simp at hcon
        · rintro (h | ⟨q', hq', hnq⟩)
          · exact Option.noConfusion h
          · injection hq' with he
            rw [← he] at hnq
            exact absurd hq hnq
      · rw [hv, if_pos hq]
        constructor
        · intro _
          exact Or.inr ⟨q, rfl, hq⟩
        · intro _
          rfl
  · intro q' hfq hq'
    simp only [validate_expense_cost, hfq]
    rw [if_neg (not_not_intro hq')]

theorem validate_expense_cost_spec_witness :
    validate_expense_cost (.str "10") = .ok 10 :=
  (validate_expense_cost_spec (.str "10")).2.1 10 (by decide) (by decide)

/- ### C2: settlement lemmas -/

/-- The archived-expense rows the settle loop produces for the given live
rows, with ids counting up from `n` under settlement id `s`. -/
def archiveRows (n s : Nat) : List ExpenseRow → List SettledExpenseRow
  | [] => []
  | e :: rest => ⟨n, e.e_cost, e.e_title, e.e_date, e.e_payer, s⟩ :: archiveRows (n + 1) s rest

/-- The archived-share rows the settle loop produces: for each live row in
order, the debts of its id (in the shrinking debts table) re-keyed to the
fresh archived id. -/
def archiveDebts (n : Nat) (debts : List (Nat × Nat)) : List ExpenseRow → List (Nat × Nat)
  | [] => []
  | e :: rest =>
    (debts.filter (fun d => d.1 = e.e_id)).map (fun d => (n, d.2))
      ++ archiveDebts (n + 1) (debts.filter (fun d => ¬ d.1 = e.e_id)) rest

lemma settleLoop_users (s : Nat) :
    ∀ (rows : List ExpenseRow) (st : DB), (settleLoop s rows st).users = st.users := by
  intro rows
  induction rows with
  | nil => intro st; rfl
  | cons e rest ih => intro st; exact ih _

lemma settleLoop_settles (s : Nat) :
    ∀ (rows : List ExpenseRow) (st : DB), (settleLoop s rows st).settles = st.settles := by
  intro rows
  induction rows with
  | nil => intro st; rfl
  | cons e rest ih => intro st; exact ih _

lemma settleLoop_expenses (s : Nat) :
    ∀ (rows : List ExpenseRow) (st : DB),
      (settleLoop s rows st).expenses
        = st.expenses.filter (fun r => rows.all (fun e => ¬ r.e_id = e.e_id)) := by
  intro rows
  induction rows with
  | nil =>
    intro st
    simp [settleLoop]
  | cons e rest ih =>
    intro st
    rw [settleLoop, ih]
    simp only [List.filter_filter]
    congr 1
    funext r
    simp only [List.all_cons]
    rw [Bool.and_comm]

lemma settleLoop_expenses_settled (s : Nat) :
    ∀ (rows : List ExpenseRow) (st : DB),
      (settleLoop s rows st).expenses_settled
        = st.expenses_settled ++ archiveRows st.nextSettledExpenseId s rows := by
  intro rows
  induction rows with
  | nil =>
    intro st
    simp [settleLoop, archiveRows]
  | cons e rest ih =>
    intro st
    rw [settleLoop, ih, archiveRows]
    simp [List.append_assoc]

lemma settleLoop_debts_settled (s : Nat) :
    ∀ (rows : List ExpenseRow) (st : DB),
      (settleLoop s rows st).debts_settled
        = st.debts_settled ++ archiveDebts st.nextSettledExpenseId st.debts rows := by
  intro rows
  induction rows with
  | nil =>
    intro st
    simp [settleLoop, archiveDebts]
  | cons e rest ih =>
    intro st
    rw [settleLoop, ih, archiveDebts]
    simp [List.append_assoc]

lemma archiveRows_settle : ∀ (rows : List ExpenseRow) (n s : Nat),
    ∀ r ∈ archiveRows n s rows, r.e_settle = s := by
  intro rows
  induction rows with
  | nil =>
    intro n s r hr
    simp [archiveRows] at hr
  | cons e rest ih =>
    intro n s r hr
    rw [archiveRows] at hr
    rcases List.mem_cons.mp hr with rfl | hr'
    · rfl
    · exact ih (n + 1) s r hr'

lemma archiveRows_payload : ∀ (rows : List ExpenseRow) (n s : Nat),
    (archiveRows n s rows).map (fun r => (r.e_cost, r.e_title, r.e_date, r.e_payer))
      = rows.map (fun e => (e.e_cost, e.e_title, e.e_date, e.e_payer)) := by
  intro rows
  induction rows with
  | nil => intro n s; rfl
  | cons e rest ih =>
    intro n s
    rw [archiveRows]
    simp only [List.map_cons]
    rw [ih]

lemma archiveDebts_fst_ge : ∀ (rows : List ExpenseRow) (n : Nat) (debts : List (Nat × Nat)),
    ∀ d ∈ archiveDebts n debts rows, n ≤ d.1 := by
  intro rows
  induction rows with
  | nil =>
    intro n debts d hd
    simp [archiveDebts] at hd
  | cons e rest ih =>
    intro n debts d hd
    rw [archiveDebts] at hd
    rcases List.mem_append.mp hd with hd' | hd'
    · obtain ⟨d0, _, rfl⟩ := List.mem_map.mp hd'
      exact le_refl n
    · exact le_trans (Nat.le_succ n) (ih (n + 1) _ d hd')

lemma filter_filter_ne (i j : Nat) (h : ¬ i = j) :
    ∀ l : List (Nat × Nat),
      (l.filter (fun d => ¬ d.1 = j)).filter (fun d => d.1 = i)
        = l.filter (fun d => d.1 = i) := by
  intro l
  rw [List.filter_filter]
  apply List.filter_congr
  intro x _
  by_cases hx : x.1 = i
  · have hxj : ¬ x.1 = j := fun hc => h (hx.symm.trans hc)
    simp [hx, hxj, h]
  · simp [hx]

lemma archiveDebts_spec :
    ∀ (rows : List ExpenseRow),
      (rows.map (fun e => e.e_id)).Nodup →
      ∀ (n : Nat) (debts : List (Nat × Nat)),
      (List.range rows.length).map (fun k =>
          ((archiveDebts n debts rows).filter (fun d => d.1 = n + k)).map (fun d => d.2))
        = rows.map (fun e => (debts.filter (fun d => d.1 = e.e_id)).map (fun d => d.2)) := by
  intro rows
  induction rows with
  | nil =>
    intro _ n debts
    rfl
  | cons e rest ih =>
    intro hnd n debts
    simp only [List.map_cons, List.nodup_cons] at hnd
    obtain ⟨hnotin, hnd'⟩ := hnd
    rw [List.length_cons, List.range_succ_eq_map, List.map_cons, List.map_map,
      List.map_cons]
    congr 1
    · rw [archiveDebts, List.filter_append]
      have hh1 : ((debts.filter (fun d => d.1 = e.e_id)).map (fun d => (n, d.2))).filter
          (fun d => d.1 = n + 0)
          = (debts.filter (fun d => d.1 = e.e_id)).map (fun d => (n, d.2)) := by
        apply List.filter_eq_self.mpr
        intro x hx
        obtain ⟨d0, _, rfl⟩ := List.mem_map.mp hx
        simp
      have hh2 : (archiveDebts (n + 1) (debts.filter (fun d => ¬ d.1 = e.e_id)) rest).filter
          (fun d => d.1 = n + 0) = [] := by
        apply List.filter_eq_nil_iff.mpr
        intro d hd
        have hge := archiveDebts_fst_ge rest (n + 1) _ d hd
        simp only [decide_eq_true_eq]
        omega
      rw [hh1, hh2, List.append_nil, List.map_map]
      rfl
    · have hcongr : ∀ k,
          ((archiveDebts n debts (e :: rest)).filter
              (fun d => d.1 = n + Nat.succ k)).map (fun d => d.2)
            = ((archiveDebts (n + 1) (debts.filter (fun d => ¬ d.1 = e.e_id)) rest).filter
              (fun d => d.1 = (n + 1) + k)).map (fun d => d.2) := by
        intro k
        rw [archiveDebts, List.filter_append]
        have hh3 : ((debts.filter (fun d => d.1 = e.e_id)).map (fun d => (n, d.2))).filter
            (fun d => d.1 = n + Nat.succ k) = [] := by
          apply List.filter_eq_nil_iff.mpr
          intro x hx
          obtain ⟨d0, _, rfl⟩ := List.mem_map.mp hx
          simp only [decide_eq_true_eq]
          omega
        rw [hh3, List.nil_append]
        have harith : n + Nat.succ k = (n + 1) + k := by omega
        rw [harith]
      calc (List.range rest.length).map
            (fun k => ((archiveDebts n debts (e :: rest)).filter
              (fun d => d.1 = n + Nat.succ k)).map (fun d => d.2))
          = (List.range rest.length).map
            (fun k => ((archiveDebts (n + 1) (debts.filter (fun d => ¬ d.1 = e.e_id)) rest).filter
              (fun d => d.1 = (n + 1) + k)).map (fun d => d.2)) := by
            apply List.map_congr_left
            intro k _
            exact hcongr k
        _ = rest.map (fun e' =>
              (((debts.filter (fun d => ¬ d.1 = e.e_id)).filter
                (fun d => d.1 = e'.e_id)).map (fun d => d.2))) :=
            ih hnd' (n + 1) (debts.filter (fun d => ¬ d.1 = e.e_id))
        _ = rest.map (fun e' => ((debts.filter (fun d => d.1 = e'.e_id)).map (fun d => d.2))) := by
            apply List.map_congr_left
            intro e' he'
            rw [filter_filter_ne e'.e_id e.e_id
              (fun hc => hnotin (hc ▸ List.mem_map_of_mem (fun e => e.e_id) he'))]

lemma get_status_list_of_no_expenses (st : DB) (h : st.expenses = []) :
    get_status_list st = .ok [] := by
  have hn : get_expenses_named st = .ok [] := by
    unfold get_expenses_named get_expenses
    rw [h]
    rfl
  have hg : grossFold st [] zeroMat = .ok zeroMat := rfl
  rw [get_status_list_eq (get_status_dict_eq hn hg)]
  have hz : statusRows (usersNames st) (nettingPass (usersNames st) zeroMat) = [] :=
    statusRows_zero (fun a b => nettingPass_zero (fun _ _ => rfl) a b)
  rw [hz]

/-- C2: after `settle_expenses`, the live ledger is empty, the computed
balances are empty, exactly one new settlement event exists, users are
unchanged, and the archived expenses (with their archived shares, keyed by
the fresh consecutive archive ids) are exactly the previously-live expenses
with their shares. -/
theorem settle_expenses_postconditions (now : String) (st : DB)
    (h1 : ∀ r ∈ st.expenses_settled, ¬ r.e_settle = st.nextSettleId)
    (h2 : ∀ d ∈ st.debts_settled, d.1 < st.nextSettledExpenseId)
    (h3 : (st.expenses.map (fun e => e.e_id)).Nodup) :
    (settle_expenses now st).expenses = [] ∧
    get_status_list (settle_expenses now st) = .ok [] ∧
    (settle_expenses now st).settles = st.settles ++ [(st.nextSettleId, now)] ∧
    (settle_expenses now st).users = st.users ∧
    ((settle_expenses now st).expenses_settled.filter
        (fun r => r.e_settle = st.nextSettleId)).map
        (fun r => (r.e_cost, r.e_title, r.e_date, r.e_payer))
      = st.expenses.map (fun e => (e.e_cost, e.e_title, e.e_date, e.e_payer)) ∧
    (List.range st.expenses.length).map (fun k =>
        (((settle_expenses now st).debts_settled.filter
            (fun d => d.1 = st.nextSettledExpenseId + k)).map (fun d => d.2)))
      = st.expenses.map (fun e =>
          (st.debts.filter (fun d => d.1 = e.e_id)).map (fun d => d.2)) := by
  have ha : (settle_expenses now st).expenses = [] := by
    simp only [settle_expenses]
    rw [settleLoop_expenses]
    apply List.filter_eq_nil_iff.mpr
    intro r hr
    simp only [List.all_eq_true, not_forall]
    refine ⟨r, hr, ?_⟩
    simp
  refine ⟨ha, get_status_list_of_no_expenses _ ha, ?_, ?_, ?_, ?_⟩
  · simp only [settle_expenses]
    rw [settleLoop_settles]
  · simp only [settle_expenses]
    rw [settleLoop_users]
  · simp only [settle_expenses]
    rw [settleLoop_expenses_settled, List.filter_append]
    have hh1 : st.expenses_settled.filter (fun r => r.e_settle = st.nextSettleId) = [] := by
      apply List.filter_eq_nil_iff.mpr
      intro r hr
      simpa using h1 r hr
    have hh2 : (archiveRows st.nextSettledExpenseId st.nextSettleId st.expenses).filter
        (fun r => r.e_settle = st.nextSettleId)
        = archiveRows st.nextSettledExpenseId st.nextSettleId st.expenses := by
      apply List.filter_eq_self.mpr
      intro r hr
      simpa using archiveRows_settle st.expenses st.nextSettledExpenseId st.nextSettleId r hr
    rw [hh1, hh2, List.nil_append, archiveRows_payload]
  · simp only [settle_expenses]
    rw [settleLoop_debts_settled]
    calc (List.range st.expenses.length).map (fun k =>
            (((st.debts_settled
                ++ archiveDebts st.nextSettledExpenseId st.debts st.expenses).filter
              (fun d => d.1 = st.nextSettledExpenseId + k)).map (fun d => d.2)))
        = (List.range st.expenses.length).map (fun k =>
            (((archiveDebts st.nextSettledExpenseId st.debts st.expenses).filter
              (fun d => d.1 = st.nextSettledExpenseId + k)).map (fun d => d.2))) := by
          apply List.map_congr_left
          intro k _
          rw [List.filter_append]
          have hnil : st.debts_settled.filter
              (fun d => d.1 = st.nextSettledExpenseId + k) = [] := by
            apply List.filter_eq_nil_iff.mpr
            intro d hd
            have := h2 d hd
            simp only [decide_eq_true_eq]
            omega
          rw [hnil, List.nil_append]
      _ = st.expenses.map (fun e =>
            (st.debts.filter (fun d => d.1 = e.e_id)).map (fun d => d.2)) :=
          archiveDebts_spec st.expenses h3 st.nextSettledExpenseId st.debts

theorem settle_expenses_postconditions_witness :
    (settle_expenses "20130102120000" stC1).expenses = [] :=
  (settle_expenses_postconditions "20130102120000" stC1
    (by decide) (by decide) (by decide)).1
